import Mathlib

/-!
Shallow embedding of the query-string-to-filter compiler of the orm package
(`BuildWhereClause`, `processCondition`, `setPaginationField`) and of the
composable `WhereClause` builder methods.  Go strings are modelled as
`List Char`; the dynamically typed argument values (`[]interface{}`) are
modelled as the raw value strings, which is what the compiler stores in them.
-/

/-- Models Go `strings.HasPrefix`. -/
def startsWith : List Char → List Char → Bool
  | [], _ => true
  | _ :: _, [] => false
  | p :: ps, c :: cs => p == c && startsWith ps cs

/-- Models Go `strings.TrimPrefix`: drops `p` from the front of `s` when it is
a prefix, otherwise returns `s` unchanged. -/
def trimStart (p s : List Char) : List Char :=
  if startsWith p s then s.drop p.length else s

/-- Models Go `strings.Split` with a one-character separator: `n` occurrences
of the separator yield `n + 1` (possibly empty) pieces; the empty string yields
one empty piece. -/
def splitChar (ch : Char) : List Char → List (List Char)
  | [] => [[]]
  | x :: rest =>
    if x = ch then [] :: splitChar ch rest
    else
      match splitChar ch rest with
      | [] => [[x]]
      | p :: ps => (x :: p) :: ps

/-- Models Go `strings.SplitN (s, sep, 2)` for a non-empty separator: returns
the pieces around the leftmost occurrence of `sep`, or `none` when `sep` does
not occur (Go then returns the one-element slice `[s]`). -/
def splitFirst (sep : List Char) : List Char → Option (List Char × List Char)
  | [] => none
  | c :: rest =>
    if startsWith sep (c :: rest) then some ([], (c :: rest).drop sep.length)
    else
      match splitFirst sep rest with
      | some lr => some (c :: lr.1, lr.2)
      | none => none

def aggL : List Char := "agg__".toList
def useDataL : List Char := "useData".toList
def useCacheL : List Char := "useCache".toList
def withL : List Char := "with_".toList
def orderByASCL : List Char := "orderByASC".toList
def orderByDESCL : List Char := "orderByDESC".toList
def limitL : List Char := "limit".toList
def offsetL : List Char := "offset".toList
def pageL : List Char := "page".toList
def pageSizeL : List Char := "pageSize".toList
def usL : List Char := "__".toList
def eqL : List Char := "=".toList
def andSepL : List Char := " AND ".toList
def orSepL : List Char := " OR ".toList

def isDigitB (c : Char) : Bool := '0' ≤ c && c ≤ '9'

def digitsVal (ds : List Char) : Nat :=
  ds.foldl (fun a c => a * 10 + (c.toNat - '0'.toNat)) 0

/-- Models Go `strconv.Atoi` on a 64-bit platform: an optional single sign
followed by at least one decimal digit, value within the `int64` range;
anything else is an error (`none`). -/
def goAtoi (s : List Char) : Option Int :=
  let p : Bool × List Char :=
    match s with
    | '-' :: rest => (true, rest)
    | '+' :: rest => (false, rest)
    | _ => (false, s)
  if p.2 = [] then none
  else if p.2.all isDigitB then
    if p.1 then
      if digitsVal p.2 ≤ 9223372036854775808 then some (-(digitsVal p.2 : Int)) else none
    else
      if digitsVal p.2 ≤ 9223372036854775807 then some (digitsVal p.2 : Int) else none
  else none

/-- The compiled descriptor, mirroring the Go struct `WhereClause`.  The
`Aggregates` field is `Option`-valued because Go distinguishes a nil map
(`none`) from a made, possibly empty map (`some`). -/
structure WhereClause where
  Query : List Char
  Args : List (List Char)
  Preload : List (List Char)
  Limit : Int
  Offset : Int
  OrderByASC : List Char
  OrderByDESC : List Char
  Page : Int
  PageSize : Int
  Aggregates : Option (List (List Char × List (List Char)))
deriving DecidableEq

/-- Models `NewWhereClause`: the zero value of the struct (nil map). -/
def NewWhereClause : WhereClause :=
  ⟨[], [], [], 0, 0, [], [], 0, 0, none⟩

/-- Models `NewWhere`: struct literal setting query, args, limit, offset. -/
def NewWhere (query : List Char) (args : List (List Char)) (limit offset : Int) :
    WhereClause :=
  { NewWhereClause with Query := query, Args := args, Limit := limit, Offset := offset }

def WhereClause.AddAnd (w : WhereClause) : WhereClause :=
  if w.Query ≠ [] then { w with Query := w.Query ++ andSepL } else w

def WhereClause.AddOr (w : WhereClause) : WhereClause :=
  if w.Query ≠ [] then { w with Query := w.Query ++ orSepL } else w

def WhereClause.And (w : WhereClause) (query : List Char) (args : List (List Char)) :
    WhereClause :=
  { w with Query := w.Query ++ andSepL ++ query, Args := w.Args ++ args }

def WhereClause.Or (w : WhereClause) (query : List Char) (args : List (List Char)) :
    WhereClause :=
  { w with Query := w.Query ++ orSepL ++ query, Args := w.Args ++ args }

/-- Go map assignment `m[k] = v` on an association list: overwrite in place,
or append when absent. -/
def setAssoc (m : List (List Char × List (List Char))) (k : List Char)
    (v : List (List Char)) : List (List Char × List (List Char)) :=
  match m with
  | [] => [(k, v)]
  | e :: rest => if e.1 = k then (k, v) :: rest else e :: setAssoc rest k v

/-- Go map assignment lifted to the nil-or-made map. -/
def mapSet (m : Option (List (List Char × List (List Char)))) (k : List Char)
    (v : List (List Char)) : Option (List (List Char × List (List Char))) :=
  m.map (fun l => setAssoc l k v)

def lookupAssoc (m : List (List Char × List (List Char))) (k : List Char) :
    Option (List (List Char)) :=
  match m with
  | [] => none
  | e :: rest => if e.1 = k then some e.2 else lookupAssoc rest k

/-- Go map lookup `m[k]` on the nil-or-made map (lookup in a nil map is none). -/
def aggLookup (m : Option (List (List Char × List (List Char)))) (k : List Char) :
    Option (List (List Char)) :=
  match m with
  | none => none
  | some l => lookupAssoc l k

/-- The `field` computed by `processCondition`: the key up to the first `__`. -/
def condFieldOf (key : List Char) : List Char :=
  match splitFirst usL key with
  | none => key
  | some p => p.1

/-- The operator computed by `processCondition` from the key's `__` suffix. -/
def condOpOf (key : List Char) : List Char :=
  match splitFirst usL key with
  | none => "=".toList
  | some p =>
    if p.2 = "gt".toList then ">".toList
    else if p.2 = "gte".toList then ">=".toList
    else if p.2 = "lt".toList then "<".toList
    else if p.2 = "lte".toList then "<=".toList
    else if p.2 = "ne".toList then "!=".toList
    else if p.2 = "not".toList then "NOT".toList
    else "=".toList

/-- Models `processCondition`: split the piece at the first `=`; without one,
skip (empty condition, no arguments); otherwise emit `field op ?` and the raw
value as the single argument. -/
def processCondition (condition : List Char) : List Char × List (List Char) :=
  match splitFirst eqL condition with
  | none => ([], [])
  | some kv =>
    (condFieldOf kv.1 ++ (' ' :: []) ++ condOpOf kv.1 ++ (' ' :: '?' :: []), [kv.2])

/-- The loop over the `|`-split pieces of an OR-group: collect the non-empty
condition fragments in order and their arguments in order. -/
def collectOr : List (List Char) → List (List Char) × List (List Char)
  | [] => ([], [])
  | oc :: rest =>
    let pr := processCondition oc
    let acc := collectOr rest
    if pr.1 = [] then acc else (pr.1 :: acc.1, pr.2 ++ acc.2)

/-- Models Go `strings.Join`. -/
def joinSep (sep : List Char) : List (List Char) → List Char
  | [] => []
  | [x] => x
  | x :: y :: rest => x ++ sep ++ joinSep sep (y :: rest)

/-- The OR-group branch of `BuildWhereClause`: split the clause on `|`,
process each piece, append the collected arguments, and when at least one
piece parsed, append the parenthesized ` OR `-joined group to the query,
preceded by ` AND ` when the query was non-empty. -/
def orGroupStep (wc : WhereClause) (andCond : List Char) : Option WhereClause :=
  if (collectOr (splitChar '|' andCond)).1 = [] then
    some { wc with Args := wc.Args ++ (collectOr (splitChar '|' andCond)).2 }
  else
    some { wc with
      Args := wc.Args ++ (collectOr (splitChar '|' andCond)).2,
      Query := (if wc.Query = [] then wc.Query else wc.Query ++ andSepL) ++
        ('(' :: joinSep orSepL (collectOr (splitChar '|' andCond)).1 ++ (')' :: [])) }

/-- The pagination key set of the `switch` in `BuildWhereClause`. -/
def isPagKey (k : List Char) : Bool :=
  k == limitL || k == offsetL || k == pageL || k == pageSizeL

/-- Models `setPaginationField`: parse the value with Atoi (error propagates),
then store it in the field selected by the key. -/
def setPaginationField (wc : WhereClause) (key value : List Char) : Option WhereClause :=
  match goAtoi value with
  | none => none
  | some v =>
    if key == limitL then some { wc with Limit := v }
    else if key == offsetL then some { wc with Offset := v }
    else if key == pageL then some { wc with Page := v }
    else if key == pageSizeL then some { wc with PageSize := v }
    else some wc

/-- The per-clause handling after the aggregate check: empty clauses and
`useData`/`useCache` clauses are skipped, `with_` clauses feed the preload
list, then an exact `key=value` directive is checked for the sort and
pagination keys, and everything else is OR-group processed. -/
def buildStepRest (wc : WhereClause) (andCond : List Char) : Option WhereClause :=
  if andCond = [] then some wc
  else if startsWith useDataL andCond then some wc
  else if startsWith useCacheL andCond then some wc
  else if startsWith withL andCond then
    some { wc with Preload := wc.Preload ++ splitChar '|' (trimStart withL andCond) }
  else
    match splitFirst eqL andCond with
    | some kv =>
      if kv.1 == orderByASCL then some { wc with OrderByASC := kv.2 }
      else if kv.1 == orderByDESCL then some { wc with OrderByDESC := kv.2 }
      else if isPagKey kv.1 then setPaginationField wc kv.1 kv.2
      else orGroupStep wc andCond
    | none => orGroupStep wc andCond

/-- One iteration of the clause loop of `BuildWhereClause`: the `agg__`
directive is tested first (recorded only when the clause also contains `=`,
otherwise it falls through like any other clause). -/
def buildStep (wc : WhereClause) (andCond : List Char) : Option WhereClause :=
  if startsWith aggL andCond then
    match splitFirst eqL andCond with
    | some kv =>
      some { wc with
        Aggregates := mapSet wc.Aggregates (trimStart aggL kv.1) (splitChar '|' kv.2) }
    | none => buildStepRest wc andCond
  else buildStepRest wc andCond

def buildLoop : WhereClause → List (List Char) → Option WhereClause
  | wc, [] => some wc
  | wc, c :: rest =>
    match buildStep wc c with
    | none => none
    | some wc2 => buildLoop wc2 rest

/-- The descriptor `BuildWhereClause` starts from: zero fields but a made
(empty) aggregates map. -/
def initialWhereClause : WhereClause :=
  { NewWhereClause with Aggregates := some [] }

/-- Models `BuildWhereClause`: split the query string on `&` and fold the
per-clause step over the pieces, propagating the only possible error (a
pagination value that Atoi rejects). -/
def BuildWhereClause (queryString : List Char) : Option WhereClause :=
  buildLoop initialWhereClause (splitChar '&' queryString)

/-- A clause whose text before the first `=` is exactly one of the four
numeric pagination keys and whose value Atoi rejects: by the failure-mode
claim these are exactly the clauses that abort compilation. -/
def isBadPag (c : List Char) : Bool :=
  match splitFirst eqL c with
  | some kv => isPagKey kv.1 && (goAtoi kv.2).isNone
  | none => false

/-- An OR-group piece is clean when its field part (text before the first
`=`, truncated at the first `__`) contains no `?` character. -/
def pieceCleanB (oc : List Char) : Bool :=
  match splitFirst eqL oc with
  | none => true
  | some kv => (condFieldOf kv.1).count '?' == 0

def clauseCleanB (c : List Char) : Bool := (splitChar '|' c).all pieceCleanB

/-- Every `|`-piece of every `&`-clause of the input has a `?`-free field. -/
def allCleanB (s : List Char) : Bool := (splitChar '&' s).all clauseCleanB

/-- A clause is pagination-safe when, if it is a pagination directive whose
value parses, the parsed value is non-negative. -/
def clausePagOkB (c : List Char) : Bool :=
  match splitFirst eqL c with
  | some kv =>
    if isPagKey kv.1 then
      match goAtoi kv.2 with
      | some n => decide (0 ≤ n)
      | none => true
    else true
  | none => true

/-- A clause matches none of the directive forms: then the compiler treats it
as an OR-group. -/
def directiveFreeB (c : List Char) : Bool :=
  !(startsWith aggL c) && !(c == []) && !(startsWith useDataL c) &&
  !(startsWith useCacheL c) && !(startsWith withL c) &&
  (match splitFirst eqL c with
   | some kv => !(kv.1 == orderByASCL) && !(kv.1 == orderByDESCL) && !(isPagKey kv.1)
   | none => true)

/-- What the aggregate directive claim says a clause `c` records for function
name `f`: when `c` has the `agg__` prefix and an `=`, the stripped left side
is the function name and the right side splits on `|` into the field list. -/
def aggValueOf (f c : List Char) : Option (List (List Char)) :=
  if startsWith aggL c then
    match splitFirst eqL c with
    | some kv => if trimStart aggL kv.1 = f then some (splitChar '|' kv.2) else none
    | none => none
  else none

/-- Last-wins folding of the aggregate directives of a clause list, for one
function name. -/
def aggFold (f : List Char) (cs : List (List Char))
    (acc : Option (List (List Char))) : Option (List (List Char)) :=
  match cs with
  | [] => acc
  | c :: rest =>
    aggFold f rest (match aggValueOf f c with | some v => some v | none => acc)

/-- The operator table exactly as the condition-parsing claim words it:
gt to >, gte to >=, lt to <, lte to <=, ne to !=, not to the bare keyword
NOT, and = for an absent or unrecognized suffix. -/
def specOperatorFor (suf : List Char) : List Char :=
  if suf = "gt".toList then ">".toList
  else if suf = "gte".toList then ">=".toList
  else if suf = "lt".toList then "<".toList
  else if suf = "lte".toList then "<=".toList
  else if suf = "ne".toList then "!=".toList
  else if suf = "not".toList then "NOT".toList
  else "=".toList

theorem startsWith_append_drop :
    ∀ (p s : List Char), startsWith p s = true → s = p ++ s.drop p.length := by
  intro p
  induction p with
  | nil => intro s _; simp
  | cons a ps ih =>
    intro s h
    cases s with
    | nil => simp [startsWith] at h
    | cons b t =>
      simp only [startsWith, Bool.and_eq_true, beq_iff_eq] at h
      obtain ⟨h1, h2⟩ := h
      subst h1
      simpa using congrArg (a :: ·) (ih t h2)

theorem splitFirst_eq_append :
    ∀ (sep s : List Char) lr, splitFirst sep s = some lr → s = lr.1 ++ sep ++ lr.2 := by
  intro sep s
  induction s with
  | nil => intro lr h; simp [splitFirst] at h
  | cons c rest ih =>
    intro lr h
    unfold splitFirst at h
    split at h
    · rename_i hsw
      cases h
      simpa using startsWith_append_drop sep (c :: rest) hsw
    · split at h
      · rename_i lr2 heq
        cases h
        have hr := ih lr2 heq
        simp [hr]
      · cases h

theorem splitChar_ne_nil (ch : Char) : ∀ s, splitChar ch s ≠ [] := by
  intro s
  induction s with
  | nil => simp [splitChar]
  | cons x rest ih =>
    unfold splitChar
    split
    · simp
    · split
      · simp
      · simp

theorem orGroupStep_isSome (wc : WhereClause) (c : List Char) :
    (orGroupStep wc c).isSome := by
  unfold orGroupStep
  split <;> simp

theorem buildStep_limit (wc : WhereClause) (v : List Char) :
    buildStep wc (limitL ++ eqL ++ v) = setPaginationField wc limitL v := rfl

theorem buildStep_offset (wc : WhereClause) (v : List Char) :
    buildStep wc (offsetL ++ eqL ++ v) = setPaginationField wc offsetL v := rfl

theorem buildStep_page (wc : WhereClause) (v : List Char) :
    buildStep wc (pageL ++ eqL ++ v) = setPaginationField wc pageL v := rfl

theorem buildStep_pageSize (wc : WhereClause) (v : List Char) :
    buildStep wc (pageSizeL ++ eqL ++ v) = setPaginationField wc pageSizeL v := rfl

theorem buildStep_orderByASC (wc : WhereClause) (v : List Char) :
    buildStep wc (orderByASCL ++ eqL ++ v) = some { wc with OrderByASC := v } := rfl

theorem buildStep_orderByDESC (wc : WhereClause) (v : List Char) :
    buildStep wc (orderByDESCL ++ eqL ++ v) = some { wc with OrderByDESC := v } := rfl

theorem buildLoop_preserve (P : WhereClause → Prop) (cond : List Char → Bool)
    (hstep : ∀ wc c wc', cond c = true → buildStep wc c = some wc' → P wc → P wc') :
    ∀ (cs : List (List Char)) (wc wc' : WhereClause),
      (∀ c ∈ cs, cond c = true) → buildLoop wc cs = some wc' → P wc → P wc' := by
  intro cs
  induction cs with
  | nil =>
    intro wc wc' _ h hP
    unfold buildLoop at h
    cases h
    exact hP
  | cons c rest ih =>
    intro wc wc' hall h hP
    unfold buildLoop at h
    cases hb : buildStep wc c with
    | none => rw [hb] at h; cases h
    | some wc2 =>
      rw [hb] at h
      exact ih wc2 wc' (fun x hx => hall x (List.mem_cons_of_mem c hx)) h
        (hstep wc c wc2 (hall c (List.mem_cons_self c rest)) hb hP)

theorem condOpOf_count (k : List Char) : (condOpOf k).count '?' = 0 := by
  unfold condOpOf
  split
  · decide
  · split_ifs <;> decide

theorem joinSep_count (parts : List (List Char))
    (h : ∀ p ∈ parts, p.count '?' = 1) :
    (joinSep orSepL parts).count '?' = parts.length := by
  induction parts with
  | nil => simp [joinSep]
  | cons x rest ih =>
    cases rest with
    | nil => simpa [joinSep] using h x (List.mem_cons_self x [])
    | cons y t =>
      have hx := h x (List.mem_cons_self x (y :: t))
      have hr := ih (fun p hp => h p (List.mem_cons_of_mem x hp))
      have ho : orSepL.count '?' = 0 := by decide
      simp only [joinSep, List.count_append, hx, hr, ho, List.length_cons]
      omega

theorem collectOr_spec :
    ∀ (ocs : List (List Char)), (∀ oc ∈ ocs, pieceCleanB oc = true) →
      (collectOr ocs).1.length = (collectOr ocs).2.length ∧
      ∀ p ∈ (collectOr ocs).1, p.count '?' = 1 := by
  intro ocs
  induction ocs with
  | nil => intro _; simp [collectOr]
  | cons oc rest ih =>
    intro h
    obtain ⟨h1, h2⟩ := ih (fun x hx => h x (List.mem_cons_of_mem oc hx))
    have hoc := h oc (List.mem_cons_self oc rest)
    cases hsp : splitFirst eqL oc with
    | none =>
      have hpc : processCondition oc = ([], []) := by simp [processCondition, hsp]
      simp only [collectOr, hpc]
      exact ⟨h1, h2⟩
    | some kv =>
      have hpc : processCondition oc =
          (condFieldOf kv.1 ++ (' ' :: []) ++ condOpOf kv.1 ++ (' ' :: '?' :: []),
            [kv.2]) := by
        simp [processCondition, hsp]
      have hf : (condFieldOf kv.1).count '?' = 0 := by
        unfold pieceCleanB at hoc
        rw [hsp] at hoc
        simpa using hoc
      have hcnt : (processCondition oc).1.count '?' = 1 := by
        rw [hpc]
        simp [List.count_append, hf, condOpOf_count]
      have hne : ¬((processCondition oc).1 = []) := by
        rw [hpc]
        simp
      simp only [collectOr, if_neg hne]
      constructor
      · simp [hpc, h1]
      · intro p hp
        rcases List.mem_cons.mp hp with h3 | h3
        · rw [h3]; exact hcnt
        · exact h2 p h3

theorem orGroupStep_count (wc wc' : WhereClause) (c : List Char)
    (hc : clauseCleanB c = true)
    (h : orGroupStep wc c = some wc')
    (hinv : wc.Query.count '?' = wc.Args.length) :
    wc'.Query.count '?' = wc'.Args.length := by
  have hall : ∀ oc ∈ splitChar '|' c, pieceCleanB oc = true := List.all_eq_true.mp hc
  obtain ⟨hlen, hcnt⟩ := collectOr_spec (splitChar '|' c) hall
  have handSep : andSepL.count '?' = 0 := by decide
  unfold orGroupStep at h
  split at h
  · rename_i hemp
    cases h
    have h2 : (collectOr (splitChar '|' c)).2 = [] := by
      apply List.eq_nil_of_length_eq_zero
      rw [← hlen, hemp]
      rfl
    simp [h2, hinv]
  · rename_i hemp
    cases h
    have hjoin : (joinSep orSepL (collectOr (splitChar '|' c)).1).count '?' =
        (collectOr (splitChar '|' c)).1.length := joinSep_count _ hcnt
    have hpo : (('(' : Char) == '?') = false := by decide
    have hpc : ((')' : Char) == '?') = false := by decide
    have hpre : (if wc.Query = [] then wc.Query else wc.Query ++ andSepL).count '?' =
        wc.Args.length := by
      split
      · exact hinv
      · simp [List.count_append, handSep, hinv]
    have hgrp : ('(' :: joinSep orSepL (collectOr (splitChar '|' c)).1 ++
        (')' :: [])).count '?' = (collectOr (splitChar '|' c)).2.length := by
      rw [← hlen, ← hjoin]
      simp [List.count_cons, List.count_append, hpo, hpc]
    show ((if wc.Query = [] then wc.Query else wc.Query ++ andSepL) ++
        ('(' :: joinSep orSepL (collectOr (splitChar '|' c)).1 ++ (')' :: []))).count '?' =
      (wc.Args ++ (collectOr (splitChar '|' c)).2).length
    rw [List.count_append, hpre, hgrp, List.length_append]

theorem setPaginationField_qa (wc : WhereClause) (k v : List Char) (wc' : WhereClause)
    (h : setPaginationField wc k v = some wc') :
    wc'.Query = wc.Query ∧ wc'.Args = wc.Args ∧ wc'.Preload = wc.Preload ∧
    wc'.OrderByASC = wc.OrderByASC ∧ wc'.OrderByDESC = wc.OrderByDESC ∧
    wc'.Aggregates = wc.Aggregates := by
  unfold setPaginationField at h
  split at h
  · exact Option.noConfusion h
  · split_ifs at h <;> (cases h; exact ⟨rfl, rfl, rfl, rfl, rfl, rfl⟩)

theorem buildStepRest_count (wc : WhereClause) (c : List Char) (wc' : WhereClause)
    (hc : clauseCleanB c = true)
    (h : buildStepRest wc c = some wc')
    (hinv : wc.Query.count '?' = wc.Args.length) :
    wc'.Query.count '?' = wc'.Args.length := by
  unfold buildStepRest at h
  split_ifs at h
  · cases h; exact hinv
  · cases h; exact hinv
  · cases h; exact hinv
  · cases h; exact hinv
  · split at h
    · split_ifs at h
      · cases h; exact hinv
      · cases h; exact hinv
      · obtain ⟨hq, ha, -⟩ := setPaginationField_qa wc _ _ wc' h
        rw [hq, ha]
        exact hinv
      · exact orGroupStep_count wc wc' c hc h hinv
    · exact orGroupStep_count wc wc' c hc h hinv

theorem buildStep_count (wc : WhereClause) (c : List Char) (wc' : WhereClause)
    (hc : clauseCleanB c = true)
    (h : buildStep wc c = some wc')
    (hinv : wc.Query.count '?' = wc.Args.length) :
    wc'.Query.count '?' = wc'.Args.length := by
  unfold buildStep at h
  split at h
  · split at h
    · cases h; exact hinv
    · exact buildStepRest_count wc c wc' hc h hinv
  · exact buildStepRest_count wc c wc' hc h hinv

theorem setPaginationField_none (wc : WhereClause) (k v : List Char) :
    setPaginationField wc k v = none ↔ goAtoi v = none := by
  unfold setPaginationField
  split
  · rename_i h
    simp [h]
  · rename_i n h
    split_ifs <;> simp [h]

theorem orGroupStep_fields (wc : WhereClause) (c : List Char) (wc' : WhereClause)
    (h : orGroupStep wc c = some wc') :
    wc'.Preload = wc.Preload ∧ wc'.Limit = wc.Limit ∧ wc'.Offset = wc.Offset ∧
    wc'.OrderByASC = wc.OrderByASC ∧ wc'.OrderByDESC = wc.OrderByDESC ∧
    wc'.Page = wc.Page ∧ wc'.PageSize = wc.PageSize ∧ wc'.Aggregates = wc.Aggregates := by
  unfold orGroupStep at h
  split at h <;> (cases h; exact ⟨rfl, rfl, rfl, rfl, rfl, rfl, rfl, rfl⟩)

theorem isBadPag_shape (c : List Char) (h : isBadPag c = true) :
    ∃ v, (goAtoi v).isNone = true ∧
      (c = limitL ++ eqL ++ v ∨ c = offsetL ++ eqL ++ v ∨ c = pageL ++ eqL ++ v ∨
        c = pageSizeL ++ eqL ++ v) := by
  unfold isBadPag at h
  split at h
  · rename_i kv hsp
    simp only [Bool.and_eq_true] at h
    obtain ⟨hk, ha⟩ := h
    have hc := splitFirst_eq_append eqL c kv hsp
    refine ⟨kv.2, ha, ?_⟩
    unfold isPagKey at hk
    simp only [Bool.or_eq_true, beq_iff_eq] at hk
    rcases hk with ((h1 | h1) | h1) | h1
    · exact .inl (by rw [hc, h1])
    · exact .inr (.inl (by rw [hc, h1]))
    · exact .inr (.inr (.inl (by rw [hc, h1])))
    · exact .inr (.inr (.inr (by rw [hc, h1])))
  · exact Bool.noConfusion h

theorem buildStepRest_none_imp (wc : WhereClause) (c : List Char)
    (h : buildStepRest wc c = none) : isBadPag c = true := by
  unfold buildStepRest at h
  split_ifs at h
  split at h
  · rename_i kv hsp
    split_ifs at h with ho1 ho2 hpag
    · have ha : goAtoi kv.2 = none := (setPaginationField_none wc kv.1 kv.2).mp h
      unfold isBadPag
      rw [hsp]
      simp [hpag, ha]
    · have := orGroupStep_isSome wc c
      rw [h] at this
      simp at this
  · have := orGroupStep_isSome wc c
    rw [h] at this
    simp at this

theorem buildStep_none_iff (wc : WhereClause) (c : List Char) :
    buildStep wc c = none ↔ isBadPag c = true := by
  constructor
  · intro h
    unfold buildStep at h
    split at h
    · split at h
      · exact Option.noConfusion h
      · exact buildStepRest_none_imp wc c h
    · exact buildStepRest_none_imp wc c h
  · intro h
    obtain ⟨v, ha, hc⟩ := isBadPag_shape c h
    have ha2 : goAtoi v = none := Option.isNone_iff_eq_none.mp ha
    rcases hc with h1 | h1 | h1 | h1 <;> subst h1
    · rw [buildStep_limit]
      exact (setPaginationField_none wc limitL v).mpr ha2
    · rw [buildStep_offset]
      exact (setPaginationField_none wc offsetL v).mpr ha2
    · rw [buildStep_page]
      exact (setPaginationField_none wc pageL v).mpr ha2
    · rw [buildStep_pageSize]
      exact (setPaginationField_none wc pageSizeL v).mpr ha2

theorem buildLoop_none_iff :
    ∀ (cs : List (List Char)) (wc : WhereClause),
      buildLoop wc cs = none ↔ ∃ c ∈ cs, isBadPag c = true := by
  intro cs
  induction cs with
  | nil => intro wc; simp [buildLoop]
  | cons c rest ih =>
    intro wc
    constructor
    · intro h
      unfold buildLoop at h
      cases hb : buildStep wc c with
      | none => exact ⟨c, List.mem_cons_self c rest, (buildStep_none_iff wc c).mp hb⟩
      | some wc2 =>
        rw [hb] at h
        obtain ⟨x, hx, hbad⟩ := (ih wc2).mp h
        exact ⟨x, List.mem_cons_of_mem c hx, hbad⟩
    · intro hex
      obtain ⟨x, hx, hbad⟩ := hex
      unfold buildLoop
      rcases List.mem_cons.mp hx with h1 | h1
      · rw [h1] at hbad
        rw [(buildStep_none_iff wc c).mpr hbad]
      · cases hb : buildStep wc c with
        | none => rfl
        | some wc2 => exact (ih wc2).mpr ⟨x, h1, hbad⟩

theorem buildStepRest_aggregates (wc : WhereClause) (c : List Char) (wc' : WhereClause)
    (h : buildStepRest wc c = some wc') : wc'.Aggregates = wc.Aggregates := by
  unfold buildStepRest at h
  split_ifs at h
  · cases h; rfl
  · cases h; rfl
  · cases h; rfl
  · cases h; rfl
  · split at h
    · rename_i kv hsp
      split_ifs at h
      · cases h; rfl
      · cases h; rfl
      · exact (setPaginationField_qa wc kv.1 kv.2 wc' h).2.2.2.2.2
      · exact (orGroupStep_fields wc c wc' h).2.2.2.2.2.2.2
    · exact (orGroupStep_fields wc c wc' h).2.2.2.2.2.2.2

theorem buildStep_aggregates (wc : WhereClause) (c : List Char) (wc' : WhereClause)
    (h : buildStep wc c = some wc') :
    (wc'.Aggregates = wc.Aggregates ∧
      (startsWith aggL c = false ∨ splitFirst eqL c = none)) ∨
    (startsWith aggL c = true ∧ ∃ kv, splitFirst eqL c = some kv ∧
      wc'.Aggregates = mapSet wc.Aggregates (trimStart aggL kv.1) (splitChar '|' kv.2)) := by
  unfold buildStep at h
  split at h
  · rename_i hpre
    split at h
    · rename_i kv hsp
      cases h
      exact .inr ⟨hpre, kv, hsp, rfl⟩
    · rename_i hsp
      exact .inl ⟨buildStepRest_aggregates wc c wc' h, .inr hsp⟩
  · rename_i hpre
    exact .inl ⟨buildStepRest_aggregates wc c wc' h,
      .inl (Bool.not_eq_true _ ▸ Bool.eq_false_iff.mpr hpre)⟩

theorem buildStep_aggIsSome (wc : WhereClause) (c : List Char) (wc' : WhereClause)
    (h : buildStep wc c = some wc') (hS : wc.Aggregates.isSome = true) :
    wc'.Aggregates.isSome = true := by
  rcases buildStep_aggregates wc c wc' h with ⟨heq, -⟩ | ⟨-, kv, -, heq⟩
  · rw [heq]; exact hS
  · obtain ⟨m, hm⟩ := Option.isSome_iff_exists.mp hS
    rw [heq, hm]
    rfl

theorem setAssoc_cons (e : List Char × List (List Char))
    (rest : List (List Char × List (List Char))) (k : List Char)
    (v : List (List Char)) :
    setAssoc (e :: rest) k v =
      if e.1 = k then (k, v) :: rest else e :: setAssoc rest k v := rfl

theorem lookupAssoc_cons (e : List Char × List (List Char))
    (rest : List (List Char × List (List Char))) (f : List Char) :
    lookupAssoc (e :: rest) f = if e.1 = f then some e.2 else lookupAssoc rest f := rfl

theorem lookupAssoc_setAssoc (m : List (List Char × List (List Char))) (k : List Char)
    (v : List (List Char)) (f : List Char) :
    lookupAssoc (setAssoc m k v) f = if k = f then some v else lookupAssoc m f := by
  induction m with
  | nil => simp [setAssoc, lookupAssoc]
  | cons e rest ih =>
    rw [setAssoc_cons]
    by_cases h1 : e.1 = k
    · rw [if_pos h1, lookupAssoc_cons]
      by_cases h2 : k = f
      · simp only [h2, if_true, if_pos rfl]
      · rw [if_neg h2, if_neg h2, lookupAssoc_cons,
          if_neg (fun hf => h2 (h1.symm.trans hf))]
    · rw [if_neg h1, lookupAssoc_cons]
      by_cases h2 : e.1 = f
      · have hk : ¬(k = f) := fun hf => h1 (h2.trans hf.symm)
        rw [if_pos h2, if_neg hk, lookupAssoc_cons, if_pos h2]
      · rw [if_neg h2, ih, lookupAssoc_cons, if_neg h2]

theorem buildStep_aggLookup (f : List Char) (wc : WhereClause) (c : List Char)
    (wc' : WhereClause) (hS : wc.Aggregates.isSome = true)
    (h : buildStep wc c = some wc') :
    aggLookup wc'.Aggregates f =
      (match aggValueOf f c with
       | some v => some v
       | none => aggLookup wc.Aggregates f) := by
  rcases buildStep_aggregates wc c wc' h with ⟨heq, hcond⟩ | ⟨hpre, kv, hsp, heq⟩
  · have hnone : aggValueOf f c = none := by
      unfold aggValueOf
      rcases hcond with h1 | h1
      · rw [h1]
        rfl
      · rw [h1]
        split <;> rfl
    rw [heq, hnone]
  · obtain ⟨m, hm⟩ := Option.isSome_iff_exists.mp hS
    have hval : aggValueOf f c =
        (if trimStart aggL kv.1 = f then some (splitChar '|' kv.2) else none) := by
      unfold aggValueOf
      rw [hpre, hsp]
      simp
    rw [heq, hm]
    have hred : aggLookup (mapSet (some m) (trimStart aggL kv.1) (splitChar '|' kv.2)) f =
        lookupAssoc (setAssoc m (trimStart aggL kv.1) (splitChar '|' kv.2)) f := rfl
    rw [hred, lookupAssoc_setAssoc, hval]
    by_cases hf : trimStart aggL kv.1 = f
    · simp only [if_pos hf]
    · simp only [if_neg hf]
      rfl

theorem buildLoop_aggLookup (f : List Char) :
    ∀ (cs : List (List Char)) (wc wc' : WhereClause),
      wc.Aggregates.isSome = true → buildLoop wc cs = some wc' →
      aggLookup wc'.Aggregates f = aggFold f cs (aggLookup wc.Aggregates f) := by
  intro cs
  induction cs with
  | nil =>
    intro wc wc' _ h
    unfold buildLoop at h
    cases h
    rfl
  | cons c rest ih =>
    intro wc wc' hS h
    unfold buildLoop at h
    cases hb : buildStep wc c with
    | none => rw [hb] at h; exact Option.noConfusion h
    | some wc2 =>
      rw [hb] at h
      have hS2 := buildStep_aggIsSome wc c wc2 hb hS
      have hstep := buildStep_aggLookup f wc c wc2 hS hb
      rw [ih wc2 wc' hS2 h, hstep]
      rfl

theorem buildStepRest_pag_nonneg (wc : WhereClause) (c : List Char) (wc' : WhereClause)
    (hcond : clausePagOkB c = true)
    (h : buildStepRest wc c = some wc')
    (hP : 0 ≤ wc.Limit ∧ 0 ≤ wc.Offset ∧ 0 ≤ wc.Page ∧ 0 ≤ wc.PageSize) :
    0 ≤ wc'.Limit ∧ 0 ≤ wc'.Offset ∧ 0 ≤ wc'.Page ∧ 0 ≤ wc'.PageSize := by
  unfold buildStepRest at h
  split_ifs at h
  · cases h; exact hP
  · cases h; exact hP
  · cases h; exact hP
  · cases h; exact hP
  · split at h
    · rename_i kv hsp
      split_ifs at h with ho1 ho2 hpag
      · cases h; exact hP
      · cases h; exact hP
      · unfold clausePagOkB at hcond
        rw [hsp] at hcond
        simp only [if_pos hpag] at hcond
        unfold setPaginationField at h
        split at h
        · exact Option.noConfusion h
        · rename_i n hAtoi
          rw [hAtoi] at hcond
          have hn : (0 : Int) ≤ n := of_decide_eq_true hcond
          split_ifs at h
          · cases h; exact ⟨hn, hP.2.1, hP.2.2.1, hP.2.2.2⟩
          · cases h; exact ⟨hP.1, hn, hP.2.2.1, hP.2.2.2⟩
          · cases h; exact ⟨hP.1, hP.2.1, hn, hP.2.2.2⟩
          · cases h; exact ⟨hP.1, hP.2.1, hP.2.2.1, hn⟩
          · cases h; exact hP
      · obtain ⟨-, hl, ho, -, -, hp, hps, -⟩ := orGroupStep_fields wc c wc' h
        rw [hl, ho, hp, hps]
        exact hP
    · obtain ⟨-, hl, ho, -, -, hp, hps, -⟩ := orGroupStep_fields wc c wc' h
      rw [hl, ho, hp, hps]
      exact hP

theorem buildStep_pag_nonneg (wc : WhereClause) (c : List Char) (wc' : WhereClause)
    (hcond : clausePagOkB c = true)
    (h : buildStep wc c = some wc')
    (hP : 0 ≤ wc.Limit ∧ 0 ≤ wc.Offset ∧ 0 ≤ wc.Page ∧ 0 ≤ wc.PageSize) :
    0 ≤ wc'.Limit ∧ 0 ≤ wc'.Offset ∧ 0 ≤ wc'.Page ∧ 0 ≤ wc'.PageSize := by
  unfold buildStep at h
  split at h
  · split at h
    · cases h; exact hP
    · exact buildStepRest_pag_nonneg wc c wc' hcond h hP
  · exact buildStepRest_pag_nonneg wc c wc' hcond h hP

theorem buildStep_fallthrough (wc : WhereClause) (c : List Char)
    (hd : directiveFreeB c = true) : buildStep wc c = orGroupStep wc c := by
  unfold directiveFreeB at hd
  simp only [Bool.and_eq_true, Bool.not_eq_true'] at hd
  obtain ⟨⟨⟨⟨⟨hA, hB⟩, hC⟩, hD⟩, hE⟩, hM⟩ := hd
  have hne : ¬(c = []) := by
    intro hc
    rw [hc] at hB
    simp at hB
  cases hsp : splitFirst eqL c with
  | none => simp [buildStep, buildStepRest, hA, hC, hD, hE, hne, hsp]
  | some kv =>
    rw [hsp] at hM
    simp only [Bool.and_eq_true, Bool.not_eq_true'] at hM
    obtain ⟨⟨hk1, hk2⟩, hk3⟩ := hM
    simp [buildStep, buildStepRest, hA, hC, hD, hE, hne, hsp, hk1, hk2, hk3]

theorem processCondition_fragment (oc : List Char) (kv : List Char × List Char)
    (hsp : splitFirst eqL oc = some kv) :
    processCondition oc =
      (condFieldOf kv.1 ++ (' ' :: []) ++ condOpOf kv.1 ++ (' ' :: '?' :: []), [kv.2]) ∧
    (processCondition oc).1 ≠ [] := by
  constructor
  · simp [processCondition, hsp]
  · simp [processCondition, hsp]

theorem collectOr_filter :
    ∀ ocs : List (List Char),
      collectOr ocs = collectOr (ocs.filter (fun oc => (splitFirst eqL oc).isSome)) := by
  intro ocs
  induction ocs with
  | nil => rfl
  | cons oc rest ih =>
    cases hsp : splitFirst eqL oc with
    | none =>
      have hpc : processCondition oc = ([], []) := by simp [processCondition, hsp]
      have hf : (splitFirst eqL oc).isSome = false := by rw [hsp]; rfl
      simp only [collectOr, hpc, List.filter_cons, hf]
      simpa using ih
    | some kv =>
      obtain ⟨hpc, hne⟩ := processCondition_fragment oc kv hsp
      have hf : (splitFirst eqL oc).isSome = true := by rw [hsp]; rfl
      simp only [List.filter_cons, hf, if_true]
      simp only [collectOr, if_neg hne]
      rw [ih]

/-- C1 counterexample: on input `with_team|with_friends` the compiled preload
list is `[team, with_friends]`, not `[team, friends]` as the claim states: the
`with_` prefix is stripped only once from the whole clause, so the second
alternative keeps its `with_` text. -/
theorem preload_strip_cex :
    (BuildWhereClause ("with_team|with_friends".toList)).map WhereClause.Preload =
      some ["team".toList, "with_friends".toList] ∧
    ¬((BuildWhereClause ("with_team|with_friends".toList)).map WhereClause.Preload =
      some ["team".toList, "friends".toList]) := by
  decide

/-- C1 (amended): in a preload clause the `with_` prefix is removed once from
the front of the clause and the remainder is split on `|`, each piece appended
in order; hence `compile("with_team|with_friends")` yields preload
`[team, with_friends]` and an empty predicate. -/
theorem preload_strip_amended :
    (∀ (wc : WhereClause) (rest : List Char),
      buildStep wc (withL ++ rest) =
        some { wc with Preload := wc.Preload ++ splitChar '|' rest }) ∧
    BuildWhereClause ("with_team|with_friends".toList) =
      some { initialWhereClause with Preload := ["team".toList, "with_friends".toList] } := by
  constructor
  · intro wc rest
    rfl
  · decide

/-- C2 counterexample: compilation succeeds on `a?=1` yet the predicate
`(a? = ?)` holds two `?` characters against a single argument, so the
placeholder-count invariant fails as stated for arbitrary successful inputs. -/
theorem placeholder_count_cex :
    (BuildWhereClause ("a?=1".toList)).map
      (fun w => decide (w.Query.count '?' = w.Args.length)) = some false := by
  decide

/-- C2 (amended): for every input whose condition fields are free of the `?`
character, a successful compilation yields a predicate whose number of `?`
placeholders equals the length of the argument sequence. -/
theorem placeholder_count_amended (s : List Char) (wc : WhereClause)
    (hclean : allCleanB s = true)
    (h : BuildWhereClause s = some wc) :
    wc.Query.count '?' = wc.Args.length :=
  buildLoop_preserve (fun w => w.Query.count '?' = w.Args.length) clauseCleanB
    buildStep_count (splitChar '&' s) initialWhereClause wc
    (List.all_eq_true.mp hclean) h rfl

/-- C2 witness: the amended invariant instantiated on the concrete input
`a=1`. -/
theorem placeholder_count_witness :
    allCleanB ("a=1".toList) = true ∧
    ({ initialWhereClause with Query := "(a = ?)".toList, Args := ["1".toList] } :
      WhereClause).Query.count '?' =
    ({ initialWhereClause with Query := "(a = ?)".toList, Args := ["1".toList] } :
      WhereClause).Args.length :=
  ⟨by decide, placeholder_count_amended ("a=1".toList) _ (by decide) (by decide)⟩

/-- C3: compilation fails exactly when some `&`-clause has the text before its
first `=` equal to one of the keys limit, offset, page, pageSize and a value
that Atoi rejects; in particular `compile("limit=abc")` fails, and no other
malformed input can fail. -/
theorem compile_error_iff :
    (∀ s : List Char,
      BuildWhereClause s = none ↔ ∃ c ∈ splitChar '&' s, isBadPag c = true) ∧
    BuildWhereClause ("limit=abc".toList) = none := by
  constructor
  · intro s
    exact buildLoop_none_iff (splitChar '&' s) initialWhereClause
  · decide

/-- C4 counterexample: `compile("limit=1|a=2")` does not fall through to
OR-group parsing as the claim states: the clause splits at its first `=` into
key `limit` and value `1|a=2`, is recognized as a pagination directive, and
compilation aborts with an Atoi error, while OR-group parsing of the same
clause would have succeeded. -/
theorem directive_exact_key_cex :
    BuildWhereClause ("limit=1|a=2".toList) = none ∧
    orGroupStep initialWhereClause ("limit=1|a=2".toList) =
      some { initialWhereClause with
        Query := "(limit = ? OR a = ?)".toList, Args := ["1".toList, "2".toList] } := by
  decide

/-- C4 (amended): the sort and pagination directives are recognized exactly
when the text before the clause's first `=` equals the recognized key — even
when the value holds further `|`-separated text, as in `limit=1|a=2`, which is
handled by `setPaginationField` and not by OR-group parsing; a clause with no
`=`, or an unrecognized key and no directive prefix, falls through to
OR-group parsing. -/
theorem directive_exact_key_amended :
    ∀ (wc : WhereClause) (c : List Char),
      (∀ kv : List Char × List Char, splitFirst eqL c = some kv →
        ((kv.1 = orderByASCL → buildStep wc c = some { wc with OrderByASC := kv.2 }) ∧
         (kv.1 = orderByDESCL → buildStep wc c = some { wc with OrderByDESC := kv.2 }) ∧
         (isPagKey kv.1 = true → buildStep wc c = setPaginationField wc kv.1 kv.2))) ∧
      (directiveFreeB c = true → buildStep wc c = orGroupStep wc c) := by
  intro wc c
  constructor
  · intro kv hsp
    have hc := splitFirst_eq_append eqL c kv hsp
    refine ⟨?_, ?_, ?_⟩
    · intro hk
      rw [hc, hk]
      exact buildStep_orderByASC wc kv.2
    · intro hk
      rw [hc, hk]
      exact buildStep_orderByDESC wc kv.2
    · intro hk
      unfold isPagKey at hk
      simp only [Bool.or_eq_true, beq_iff_eq] at hk
      rcases hk with ((h1 | h1) | h1) | h1
      · rw [hc, h1]; exact buildStep_limit wc kv.2
      · rw [hc, h1]; exact buildStep_offset wc kv.2
      · rw [hc, h1]; exact buildStep_page wc kv.2
      · rw [hc, h1]; exact buildStep_pageSize wc kv.2
  · exact buildStep_fallthrough wc c

/-- C4 witness: the amended characterization instantiated on the pagination
clause `limit=7` and on the directive-free clause `a=1|b=2`. -/
theorem directive_exact_key_witness :
    splitFirst eqL ("limit=7".toList) = some (limitL, "7".toList) ∧
    directiveFreeB ("a=1|b=2".toList) = true ∧
    buildStep NewWhereClause ("limit=7".toList) =
      setPaginationField NewWhereClause limitL ("7".toList) ∧
    buildStep NewWhereClause ("a=1|b=2".toList) =
      orGroupStep NewWhereClause ("a=1|b=2".toList) :=
  ⟨by decide, by decide,
    ((directive_exact_key_amended NewWhereClause ("limit=7".toList)).1
      (limitL, "7".toList) (by decide)).2.2 (by decide),
    (directive_exact_key_amended NewWhereClause ("a=1|b=2".toList)).2 (by decide)⟩

/-- C5 counterexample: `compile("limit=-5")` succeeds and stores the negative
value -5 in the limit field, so the compiled pagination fields are not always
non-negative. -/
theorem pagination_nonneg_cex :
    (BuildWhereClause ("limit=-5".toList)).map WhereClause.Limit = some (-5) ∧
    ((-5 : Int) < 0) := by
  decide

/-- C5 (amended): the pagination fields hold whatever integers the directive
values parse to (zero, the Go zero value, meaning unset); they are
non-negative in every successful compilation whose pagination directive
values parse to non-negative integers. -/
theorem pagination_nonneg_amended (s : List Char) (wc : WhereClause)
    (hok : ∀ c ∈ splitChar '&' s, clausePagOkB c = true)
    (h : BuildWhereClause s = some wc) :
    0 ≤ wc.Limit ∧ 0 ≤ wc.Offset ∧ 0 ≤ wc.Page ∧ 0 ≤ wc.PageSize :=
  buildLoop_preserve
    (fun w => 0 ≤ w.Limit ∧ 0 ≤ w.Offset ∧ 0 ≤ w.Page ∧ 0 ≤ w.PageSize)
    clausePagOkB buildStep_pag_nonneg (splitChar '&' s) initialWhereClause wc
    hok h (by decide)

/-- C5 witness: the amended claim instantiated on the input `limit=3`. -/
theorem pagination_nonneg_witness :
    (∀ c ∈ splitChar '&' ("limit=3".toList), clausePagOkB c = true) ∧
    (0 ≤ ({ initialWhereClause with Limit := 3 } : WhereClause).Limit ∧
     0 ≤ ({ initialWhereClause with Limit := 3 } : WhereClause).Offset ∧
     0 ≤ ({ initialWhereClause with Limit := 3 } : WhereClause).Page ∧
     0 ≤ ({ initialWhereClause with Limit := 3 } : WhereClause).PageSize) :=
  ⟨by decide, pagination_nonneg_amended ("limit=3".toList) _ (by decide) (by decide)⟩

/-- C6: condition pieces split at the first `=` and the key at the first `__`;
the emitted fragment is the field, the operator of the spec's table (gt, gte,
lt, lte, ne, not mapped to >, >=, <, <=, !=, bare NOT, and = otherwise),
and a `?` placeholder, with the raw value as the single argument; in
particular `compile("a=1&b__gt=2")` yields `(a = ?) AND (b > ?)` with
arguments 1, 2. -/
theorem condition_operator_mapping :
    (∀ (cond : List Char) (kv : List Char × List Char),
      splitFirst eqL cond = some kv →
      ((splitFirst usL kv.1 = none →
        processCondition cond =
          (kv.1 ++ (' ' :: []) ++ "=".toList ++ (' ' :: '?' :: []), [kv.2])) ∧
       (∀ fs : List Char × List Char, splitFirst usL kv.1 = some fs →
        processCondition cond =
          (fs.1 ++ (' ' :: []) ++ specOperatorFor fs.2 ++ (' ' :: '?' :: []),
            [kv.2])))) ∧
    BuildWhereClause ("a=1&b__gt=2".toList) =
      some { initialWhereClause with
        Query := "(a = ?) AND (b > ?)".toList, Args := ["1".toList, "2".toList] } := by
  constructor
  · intro cond kv hsp
    constructor
    · intro hus
      simp [processCondition, condFieldOf, condOpOf, hsp, hus]
    · intro fs hus
      simp [processCondition, condFieldOf, condOpOf, specOperatorFor, hsp, hus]
  · decide

/-- C6 witness: the operator mapping instantiated on the condition piece
`b__gt=2`. -/
theorem condition_operator_mapping_witness :
    splitFirst eqL ("b__gt=2".toList) = some ("b__gt".toList, "2".toList) ∧
    splitFirst usL ("b__gt".toList) = some ("b".toList, "gt".toList) ∧
    processCondition ("b__gt=2".toList) =
      ("b".toList ++ (' ' :: []) ++ specOperatorFor ("gt".toList) ++ (' ' :: '?' :: []),
        ["2".toList]) :=
  ⟨by decide, by decide,
    (condition_operator_mapping.1 ("b__gt=2".toList) ("b__gt".toList, "2".toList)
      (by decide)).2 ("b".toList, "gt".toList) (by decide)⟩

/-- C7: for every successful compilation and every function name, the
aggregates entry equals the last-wins fold of the aggregate directives
(`agg__` prefix stripped from the text before the first `=`, value split on
`|`); `compile("agg__sum=amount|tax")` records sum with fields amount, tax and
contributes nothing to the predicate or arguments, and a later directive with
the same function name overwrites an earlier one. -/
theorem aggregate_directive_last_wins :
    (∀ (s : List Char) (wc : WhereClause) (f : List Char),
      BuildWhereClause s = some wc →
      aggLookup wc.Aggregates f = aggFold f (splitChar '&' s) none) ∧
    BuildWhereClause ("agg__sum=amount|tax".toList) =
      some { initialWhereClause with
        Aggregates := some [("sum".toList, ["amount".toList, "tax".toList])] } ∧
    BuildWhereClause ("agg__sum=a&agg__sum=b|c".toList) =
      some { initialWhereClause with
        Aggregates := some [("sum".toList, ["b".toList, "c".toList])] } := by
  refine ⟨?_, by decide, by decide⟩
  intro s wc f h
  have hinit : aggLookup initialWhereClause.Aggregates f = none := rfl
  have := buildLoop_aggLookup f (splitChar '&' s) initialWhereClause wc rfl h
  rw [hinit] at this
  exact this

/-- C7 witness: the last-wins characterization instantiated on
`agg__sum=amount|tax` and function name sum. -/
theorem aggregate_directive_witness :
    aggLookup (some [("sum".toList, ["amount".toList, "tax".toList])]) ("sum".toList) =
      aggFold ("sum".toList) (splitChar '&' ("agg__sum=amount|tax".toList)) none :=
  aggregate_directive_last_wins.1 ("agg__sum=amount|tax".toList)
    { initialWhereClause with
      Aggregates := some [("sum".toList, ["amount".toList, "tax".toList])] }
    ("sum".toList) (by decide)

/-- C8: an OR-group fragment without `=` parses to the empty condition with no
arguments, so the collected group is the same as if all such fragments were
filtered away, and `compile("a=1|garbage")` succeeds with predicate `(a = ?)`
and the single argument 1. -/
theorem silent_skip_or_fragment :
    (∀ oc : List Char, splitFirst eqL oc = none → processCondition oc = ([], [])) ∧
    (∀ ocs : List (List Char),
      collectOr ocs = collectOr (ocs.filter (fun oc => (splitFirst eqL oc).isSome))) ∧
    BuildWhereClause ("a=1|garbage".toList) =
      some { initialWhereClause with
        Query := "(a = ?)".toList, Args := ["1".toList] } := by
  refine ⟨?_, collectOr_filter, by decide⟩
  intro oc hsp
  simp [processCondition, hsp]

/-- C8 witness: the silent-skip rule instantiated on the fragment `garbage`. -/
theorem silent_skip_witness :
    processCondition ("garbage".toList) = ([], []) :=
  silent_skip_or_fragment.1 ("garbage".toList) (by decide)

/-- C9: on a descriptor with an empty predicate, And prepends the ` AND `
connector to the new condition (and Or the ` OR ` connector) even though no
condition precedes it, while AddAnd and AddOr leave an empty predicate
untouched and append their connector only to a non-empty predicate. -/
theorem builder_connector_behavior :
    ∀ (w : WhereClause) (q : List Char) (a : List (List Char)),
      (w.Query = [] →
        ((w.And q a).Query = andSepL ++ q ∧
         (w.Or q a).Query = orSepL ++ q ∧
         w.AddAnd.Query = [] ∧
         w.AddOr.Query = [])) ∧
      (w.Query ≠ [] →
        (w.AddAnd.Query = w.Query ++ andSepL ∧
         w.AddOr.Query = w.Query ++ orSepL)) := by
  intro w q a
  constructor
  · intro hq
    refine ⟨?_, ?_, ?_, ?_⟩
    · show w.Query ++ andSepL ++ q = andSepL ++ q
      rw [hq, List.nil_append]
    · show w.Query ++ orSepL ++ q = orSepL ++ q
      rw [hq, List.nil_append]
    · unfold WhereClause.AddAnd
      rw [if_neg (fun hn => hn hq)]
      exact hq
    · unfold WhereClause.AddOr
      rw [if_neg (fun hn => hn hq)]
      exact hq
  · intro hq
    constructor
    · unfold WhereClause.AddAnd
      rw [if_pos hq]
    · unfold WhereClause.AddOr
      rw [if_pos hq]

/-- C9 witness: the connector behavior at an empty-predicate descriptor and at
one whose predicate is the single letter x. -/
theorem builder_connector_witness :
    (NewWhereClause.And ("a = ?".toList) ["1".toList]).Query =
      andSepL ++ "a = ?".toList ∧
    ((NewWhere ("x".toList) [] 0 0).AddAnd).Query = "x".toList ++ andSepL :=
  ⟨((builder_connector_behavior NewWhereClause ("a = ?".toList) ["1".toList]).1 rfl).1,
    ((builder_connector_behavior (NewWhere ("x".toList) [] 0 0) [] []).2
      (by decide)).1⟩

/-- C10: every successful compilation returns a made (non-nil) aggregates map,
which is empty when no clause carries the `agg__` prefix, whereas the
NewWhereClause and NewWhere constructors leave the aggregates map nil. -/
theorem aggregates_non_nil :
    (∀ (s : List Char) (wc : WhereClause), BuildWhereClause s = some wc →
      wc.Aggregates.isSome = true) ∧
    (∀ (s : List Char) (wc : WhereClause),
      (∀ c ∈ splitChar '&' s, startsWith aggL c = false) →
      BuildWhereClause s = some wc → wc.Aggregates = some []) ∧
    NewWhereClause.Aggregates = none ∧
    (∀ (q : List Char) (a : List (List Char)) (l o : Int),
      (NewWhere q a l o).Aggregates = none) := by
  refine ⟨?_, ?_, rfl, fun q a l o => rfl⟩
  · intro s wc h
    exact buildLoop_preserve (fun w => w.Aggregates.isSome = true) (fun _ => true)
      (fun wc c wc' _ hb hP => buildStep_aggIsSome wc c wc' hb hP)
      (splitChar '&' s) initialWhereClause wc (fun c _ => rfl) h rfl
  · intro s wc hna h
    refine buildLoop_preserve (fun w => w.Aggregates = some [])
      (fun c => !(startsWith aggL c)) ?_ (splitChar '&' s) initialWhereClause wc
      (fun c hc => by simp [hna c hc]) h rfl
    intro wc1 c wc2 hcond hb hP
    rcases buildStep_aggregates wc1 c wc2 hb with ⟨heq, -⟩ | ⟨hpre, -, -, -⟩
    · rw [heq]; exact hP
    · rw [Bool.not_eq_true'] at hcond
      rw [hcond] at hpre
      exact Bool.noConfusion hpre

/-- C10 witness: the made-map invariants instantiated on the input `a=1`. -/
theorem aggregates_non_nil_witness :
    (∀ c ∈ splitChar '&' ("a=1".toList), startsWith aggL c = false) ∧
    ({ initialWhereClause with Query := "(a = ?)".toList, Args := ["1".toList] } :
      WhereClause).Aggregates = some [] :=
  ⟨by decide, aggregates_non_nil.2.1 ("a=1".toList) _ (by decide) (by decide)⟩
